import Mathlib

/-!
# Verification of the `gpt` GPT-partition-table reader

A shallow embedding of the Go package `gpt` (files `guid.go`, `gpt.go`).
Bytes are modelled as `Nat` values below 256, Go machine integers as `Nat`
with explicit reduction modulo `2^32` / `2^64` at every point where the Go
code can overflow or wrap.  Fallible operations return `Option` / `Except`.

The `io.ReadSeeker` handle consumed by `GetPartitions` is modelled as a
byte list together with a read position (the semantics of `bytes.Reader`,
which also agrees with `os.File` on the operations used here: `Seek` to a
negative absolute offset is an error, `io.ReadFull` fails when fewer bytes
than requested remain).  A Go runtime panic (division by zero) is modelled
as the distinguished outcome `GPTError.panicDivByZero`.
-/

set_option maxRecDepth 10000

/-! ## Go formatting primitives used by `GUID.String` -/

/-- Uppercase hexadecimal digit, as produced by Go `fmt` verb `%X`. -/
def hexDigit (n : Nat) : Char :=
  if n < 10 then Char.ofNat (48 + n) else Char.ofNat (55 + n)

/-- Fuelled most-significant-first hex digit expansion (fuel `n+1` always
suffices since the value shrinks by a factor 16 every step). -/
def hexDigitsCore : Nat → Nat → List Char
  | 0, _ => []
  | fuel + 1, n =>
    if n < 16 then [hexDigit n]
    else hexDigitsCore fuel (n / 16) ++ [hexDigit (n % 16)]

/-- Hex digits of `n`, most significant first; `0` renders as `"0"`. -/
def hexDigits (n : Nat) : List Char := hexDigitsCore (n + 1) n

/-- Go `fmt.Sprintf` with verb `%0.wX` applied to an unsigned integer:
uppercase hex, zero padded on the left to at least `w` digits. -/
def hexPad (w n : Nat) : String :=
  String.mk (List.replicate (w - (hexDigits n).length) '0' ++ hexDigits n)

/-- Go `fmt.Sprintf` verb `%X` applied to a byte slice: each byte becomes
exactly two uppercase hex digits, in order. -/
def hexBytes (bs : List Nat) : String :=
  String.mk ((bs.map (fun b => [hexDigit (b / 16), hexDigit (b % 16)])).flatten)

/-! ## `guid.go`: the GUID codec -/

/-- From `guid.go`: a RFC 4122 GUID.  Fields are the Go struct fields
(`uint32`, `uint16`, `uint16`, `uint8`, `uint8`, `[6]byte`), each carried
as a `Nat` under the representation invariant of the corresponding width. -/
structure GUID where
  TimeLow : Nat
  TimeMid : Nat
  TimeHighAndVersion : Nat
  ClockSeqAndReserved : Nat
  ClockSeqLow : Nat
  Node : List Nat
deriving DecidableEq, Repr

/-- From `guid.go` line 18: the nil GUID (`[6]byte{0,0,0,0,0}` zero-fills the
sixth byte). -/
def ZeroGUID : GUID := ⟨0, 0, 0, 0, 0, [0, 0, 0, 0, 0, 0]⟩

/-- From `guid.go`, `GUID.String`: `fmt.Sprintf("%0.8X-%0.4X-%0.4X-%0.2X%0.2X-%0.16X", ...)`.
The final verb is applied to the 6-byte `Node` array, for which Go renders
two hex digits per byte (the precision 16 merely limits the number of
input bytes and has no effect on 6 bytes). -/
def GUID.toString (g : GUID) : String :=
  hexPad 8 g.TimeLow ++ "-" ++ hexPad 4 g.TimeMid ++ "-" ++
    hexPad 4 g.TimeHighAndVersion ++ "-" ++ hexPad 2 g.ClockSeqAndReserved ++
    hexPad 2 g.ClockSeqLow ++ "-" ++ hexBytes g.Node

/-- From `guid.go`, `GUID.HumanString`: a `switch` on the rendered string.  The
first case literal is transcribed exactly as it appears in the source:
its final group has thirteen `0` characters. -/
def GUID.HumanString (g : GUID) : String :=
  match g.toString with
  | "00000000-0000-0000-0000-0000000000000" => "Unused"
  | "C12A7328-F81F-11D2-BA4B-00A0C93EC93B" => "EFI System Partition"
  | "0657FD6D-A4AB-43C4-84E5-0933C84B4F4F" => "Linux Swap"
  | "9D94CE7C-1CA5-11DC-8817-01301BB8A9F5" => "DragonFly UFS1"
  | "C91818F9-8025-47AF-89D2-F030D7000C2C" => "Plan 9"
  | "824CC7A0-36A8-11E3-890A-952519AD3F61" => "OpenBSD"
  | "0FC63DAF-8483-4772-8E79-3D69D8477DE4" => "Linux"
  | guid => guid

/-! ## Binary decoding (the layout induced by `binary.Read` with
`binary.LittleEndian` on the Go struct definitions) -/

/-- Byte `i` of a byte list (lists produced by `readFull` always have the
exact requested length, so the default is never consulted on real runs). -/
def byteAt (b : List Nat) (i : Nat) : Nat := b.getD i 0

/-- Little-endian 16-bit value from two bytes. -/
def le16 (b0 b1 : Nat) : Nat := b0 + 256 * b1

/-- Little-endian 32-bit value from four bytes. -/
def le32 (b0 b1 b2 b3 : Nat) : Nat :=
  b0 + 256 * b1 + 65536 * b2 + 16777216 * b3

/-- Little-endian 64-bit value from eight bytes of `b` starting at `i`. -/
def le64At (b : List Nat) (i : Nat) : Nat :=
  byteAt b i + 2 ^ 8 * byteAt b (i + 1) + 2 ^ 16 * byteAt b (i + 2) +
    2 ^ 24 * byteAt b (i + 3) + 2 ^ 32 * byteAt b (i + 4) +
    2 ^ 40 * byteAt b (i + 5) + 2 ^ 48 * byteAt b (i + 6) +
    2 ^ 56 * byteAt b (i + 7)

/-- The 16-byte wire layout of `GUID` under `binary.Read`/`LittleEndian`:
`TimeLow` little-endian in bytes 0–3, `TimeMid` in 4–5,
`TimeHighAndVersion` in 6–7, the two clock-sequence bytes at 8 and 9, and
the `Node` array raw in bytes 10–15. -/
def decodeGUID (b : List Nat) : GUID where
  TimeLow := le32 (byteAt b 0) (byteAt b 1) (byteAt b 2) (byteAt b 3)
  TimeMid := le16 (byteAt b 4) (byteAt b 5)
  TimeHighAndVersion := le16 (byteAt b 6) (byteAt b 7)
  ClockSeqAndReserved := byteAt b 8
  ClockSeqLow := byteAt b 9
  Node := [byteAt b 10, byteAt b 11, byteAt b 12, byteAt b 13,
           byteAt b 14, byteAt b 15]

/-- Little-endian byte expansion of a 32-bit value. -/
def le32Bytes (n : Nat) : List Nat :=
  [n % 256, n / 256 % 256, n / 65536 % 256, n / 16777216 % 256]

/-- Little-endian byte expansion of a 16-bit value. -/
def le16Bytes (n : Nat) : List Nat := [n % 256, n / 256 % 256]

/-- Modelled from the spec: the repository never serialises a GUID back to
bytes, so re-encoding is the inverse of the same field layout
(`binary.Write`/`LittleEndian` applied to the Go `GUID` struct): `TimeLow`
as four little-endian bytes, `TimeMid` and `TimeHighAndVersion` as two
each, the two clock-sequence bytes, then the 6 `Node` bytes raw. -/
def encodeGUID (g : GUID) : List Nat :=
  le32Bytes g.TimeLow ++ le16Bytes g.TimeMid ++ le16Bytes g.TimeHighAndVersion ++
    [g.ClockSeqAndReserved % 256, g.ClockSeqLow % 256] ++ g.Node

/-! ## Partition entries (`gpt.go` lines 195–247) -/

/-- From `gpt.go`: `GPTPartitionEntry` (128 bytes of fixed fields on the wire).
The `Attributes` field (Go type `GPTPartitionAttribute = uint64`) is a
`Nat` under the 64-bit representation invariant; `PartitionName` carries
the 36 `uint16` code units.  The field name `UniqueParitition` preserves
the source's spelling. -/
structure GPTPartitionEntry where
  PartitionType : GUID
  UniqueParitition : GUID
  StartingLBA : Nat
  EndingLBA : Nat
  Attributes : Nat
  PartitionName : List Nat
deriving DecidableEq, Repr

/-- The 128-byte wire layout of `GPTPartitionEntry` under
`binary.Read`/`LittleEndian`: type GUID at 0–15, unique GUID at 16–31,
starting and ending LBA at 32–39 and 40–47, attributes at 48–55, and the
36 little-endian `uint16` name units in bytes 56–127. -/
def decodeEntry (b : List Nat) : GPTPartitionEntry where
  PartitionType := decodeGUID (b.take 16)
  UniqueParitition := decodeGUID ((b.drop 16).take 16)
  StartingLBA := le64At b 32
  EndingLBA := le64At b 40
  Attributes := le64At b 48
  PartitionName :=
    (List.range 36).map (fun i => le16 (byteAt b (56 + 2 * i)) (byteAt b (57 + 2 * i)))

/-- From `gpt.go`, `GPTPartitionEntry.Size`: `e.EndingLBA - e.StartingLBA` with
Go `uint64` (wrapping) subtraction, expressed on `Nat` representatives
below `2^64`. -/
def GPTPartitionEntry.Size (e : GPTPartitionEntry) : Nat :=
  (e.EndingLBA + 2 ^ 64 - e.StartingLBA) % 2 ^ 64

/-- Go `unicode/utf16.Decode`: surrogate pairs combine, unpaired
surrogates decode to U+FFFD, everything else maps through unchanged. -/
def utf16Decode : List Nat → List Char
  | [] => []
  | [u] =>
    if 0xD800 ≤ u ∧ u < 0xE000 then [Char.ofNat 0xFFFD] else [Char.ofNat u]
  | u :: v :: rest =>
    if 0xD800 ≤ u ∧ u < 0xDC00 then
      if 0xDC00 ≤ v ∧ v < 0xE000 then
        Char.ofNat (0x10000 + (u - 0xD800) * 0x400 + (v - 0xDC00)) :: utf16Decode rest
      else Char.ofNat 0xFFFD :: utf16Decode (v :: rest)
    else if 0xDC00 ≤ u ∧ u < 0xE000 then
      Char.ofNat 0xFFFD :: utf16Decode (v :: rest)
    else Char.ofNat u :: utf16Decode (v :: rest)

/-- Index of the first zero code unit, starting the count at `i`
(the index scan of the loop in `GPTPartitionEntry.GetName`). -/
def firstZeroIdx : List Nat → Nat → Option Nat
  | [], _ => none
  | c :: rest, i => if c = 0 then some i else firstZeroIdx rest (i + 1)

/-- From `gpt.go`, `GPTPartitionEntry.GetName`: scan for the first zero code
unit; at index 0 return `""`, at index `i > 0` decode the prefix of
length `i`, with no zero unit decode the whole 36-unit field. -/
def GPTPartitionEntry.GetName (e : GPTPartitionEntry) : String :=
  match firstZeroIdx e.PartitionName 0 with
  | some 0 => ""
  | some i => String.mk (utf16Decode (e.PartitionName.take i))
  | none => String.mk (utf16Decode e.PartitionName)

/-! ## GPT header and `Verify` (`gpt.go` lines 30–118) -/

/-- The distinct error outcomes of the package, one constructor per
distinct error-return site reachable in `Verify`/`GetPartitions`
(`fmt.Errorf` values collapsed to their identity), plus `seekError` for a
failed `Seek`, `readError` for a failed `io.ReadFull`/`binary.Read`, and
`panicDivByZero` for the Go runtime panic raised by integer division by
zero. -/
inductive GPTError where
  | badSignature
  | reservedNonZero
  | paddingCorrupted
  | unsupportedLayout
  | seekError
  | seekMismatch
  | panicDivByZero
  | misalignedEntrySize
  | entryPaddingCorrupted
  | readError
deriving DecidableEq, Repr

/-- From `gpt.go`: `GPTHeader`.  `Signature` is the 8 signature bytes,
`Padding` the `512 - 92 = 420` trailing padding bytes; all integer fields
are `Nat` representatives of their Go machine-integer types (`uint32` or
`uint64`). -/
structure GPTHeader where
  Signature : List Nat
  Revision : Nat
  HeaderSize : Nat
  HeaderCRC32 : Nat
  Reserved : Nat
  MyLBA : Nat
  AltLBA : Nat
  FirstUseableLBA : Nat
  LastUseableLBA : Nat
  Disk : GUID
  PartitionEntryLBA : Nat
  MaxNumberPartitionEntries : Nat
  SizeOfPartitionEntry : Nat
  PartitionEntryArrayCRC32 : Nat
  Padding : List Nat
deriving DecidableEq, Repr

/-- The byte values of the ASCII literal `"EFI PART"`. -/
def efiSignature : List Nat := [69, 70, 73, 32, 80, 65, 82, 84]

/-- From `gpt.go`, `GPTHeader.verifyAlt`: unimplemented stub, always succeeds. -/
def GPTHeader.verifyAlt (_ : GPTHeader) : Option GPTError := none

/-- From `gpt.go`, `GPTHeader.Verify`: signature check, reserved-field check,
padding scan, then the supported-placement check, finally delegating to
the (stubbed) alternate-header verification.  `none` is Go's `nil`
error.  Note that, exactly as in the source, neither `HeaderCRC32` nor
`PartitionEntryArrayCRC32` is inspected. -/
def GPTHeader.Verify (g : GPTHeader) : Option GPTError :=
  if g.Signature ≠ efiSignature then some .badSignature
  else if g.Reserved ≠ 0 then some .reservedNonZero
  else if g.Padding.any (fun b => b != 0) then some .paddingCorrupted
  else if g.MyLBA ≠ 1 ∨ g.PartitionEntryLBA ≠ 2 then some .unsupportedLayout
  else g.verifyAlt

/-- A header passing every check of `Verify`: correct signature, zero
reserved field, all-zero padding, `MyLBA = 1`, `PartitionEntryLBA = 2`;
the partition-array geometry is the 4-entries-in-one-block layout used by
the spec's example. -/
def cleanHeader : GPTHeader where
  Signature := efiSignature
  Revision := 65536
  HeaderSize := 92
  HeaderCRC32 := 0
  Reserved := 0
  MyLBA := 1
  AltLBA := 100
  FirstUseableLBA := 34
  LastUseableLBA := 90
  Disk := ZeroGUID
  PartitionEntryLBA := 2
  MaxNumberPartitionEntries := 4
  SizeOfPartitionEntry := 128
  PartitionEntryArrayCRC32 := 0
  Padding := List.replicate 420 0

/-! ## The reader model and `GetPartitions` (`gpt.go` lines 123–193) -/

/-- The `io.ReadSeeker` state: device contents and current read position. -/
structure Reader where
  data : List Nat
  pos : Nat
deriving DecidableEq, Repr

/-- Model of `Seek(offset, 0)` of `bytes.Reader` / `os.File`: absolute
positioning; a negative offset is an error, any non-negative offset
(also one beyond the end of the data) succeeds and is returned. -/
def goSeek (r : Reader) (offset : Int) : Option (Nat × Reader) :=
  if offset < 0 then none
  else some (offset.toNat, { r with pos := offset.toNat })

/-- Model of `io.ReadFull(r, buf)` with `len(buf) = n`: succeeds returning exactly
`n` bytes and advancing the position iff `n` bytes remain; otherwise the
`EOF`/`ErrUnexpectedEOF` failure. -/
def readFull (r : Reader) (n : Nat) : Option (List Nat × Reader) :=
  if r.pos + n ≤ r.data.length then
    some ((r.data.drop r.pos).take n, { r with pos := r.pos + n })
  else none

/-- Reinterpret a `uint64` representative (`< 2^64`) as a Go `int64`. -/
def toInt64 (v : Nat) : Int :=
  if v < 2 ^ 63 then (v : Int) else (v : Int) - 2 ^ 64

/-- One `uint32` decrement with wrap-around (`partitionsLeft--`). -/
def dec32 (x : Nat) : Nat := (x + (2 ^ 32 - 1)) % 2 ^ 32

/-- Go `uint32` subtraction `a - b` with wrap-around, for `b ≤ 2^32`
(used for `g.SizeOfPartitionEntry - 128`). -/
def sub32 (a b : Nat) : Nat := (a + 2 ^ 32 - b) % 2 ^ 32

/-- The inner loop of `GetPartitions`
(`for i := uint32(0); i < partitionsPerBlock; i++`): decode `count`
entries from the in-memory block reader `pr`, each as 128 fixed bytes
(`binary.Read`) followed by `paddingSize` padding bytes that must all be
zero; `left` is the running `partitionsLeft` counter, decremented with
`uint32` wrap-around for every decoded entry regardless of reaching
zero, and `acc` accumulates `partitions = append(partitions, p)`. -/
def readEntries (paddingSize : Nat) :
    Nat → Reader → Nat → List GPTPartitionEntry →
      Except GPTError (Reader × Nat × List GPTPartitionEntry)
  | 0, pr, left, acc => .ok (pr, left, acc)
  | i + 1, pr, left, acc =>
    match readFull pr 128 with
    | none => .error .readError
    | some (eb, pr₁) =>
      let p := decodeEntry eb
      if paddingSize > 0 then
        match readFull pr₁ paddingSize with
        | none => .error .readError
        | some (padding, pr₂) =>
          if padding.any (fun b => b != 0) then .error .entryPaddingCorrupted
          else readEntries paddingSize i pr₂ (dec32 left) (acc ++ [p])
      else readEntries paddingSize i pr₁ (dec32 left) (acc ++ [p])

/-- The block-at-a-time loop of `GetPartitions`
(`for partitionsLeft > 0`): read one full 512-byte logical block from
the device, then decode `perBlock` entries from it.  `fuel` bounds the
number of block reads; `GetPartitions` supplies `data.length / 512 + 1`,
strictly more blocks than the reader can deliver, so the
fuel-exhaustion outcome coincides with the read failure the Go loop
would hit at that point (each successful iteration consumes exactly 512
bytes of the device). -/
def partsLoop (perBlock paddingSize : Nat) :
    Nat → Nat → Reader → List GPTPartitionEntry →
      Except GPTError (List GPTPartitionEntry)
  | 0, left, _, acc => if left = 0 then .ok acc else .error .readError
  | fuel + 1, left, r, acc =>
    if left = 0 then .ok acc
    else
      match readFull r 512 with
      | none => .error .readError
      | some (block, r') =>
        match readEntries paddingSize perBlock ⟨block, 0⟩ left acc with
        | .error e => .error e
        | .ok (_, left', acc') => partsLoop perBlock paddingSize fuel left' r' acc'

/-- From `gpt.go`, `GPTHeader.GetPartitions`: seek to
`LogicalBlockSize * g.PartitionEntryLBA` (the `uint64` product wraps,
then is reinterpreted as `int64`); fail if the achieved offset differs
from the target; compute `partitionsPerBlock` by dividing the block size
by `SizeOfPartitionEntry` (Go divides before checking divisibility, so a
zero entry size is a runtime division-by-zero panic); reject entry sizes
that do not divide the block size; then read and decode one block at a
time until `partitionsLeft` reaches zero. -/
def GPTHeader.GetPartitions (g : GPTHeader) (hd : Reader) :
    Except GPTError (List GPTPartitionEntry) :=
  match goSeek hd (toInt64 (512 * g.PartitionEntryLBA % 2 ^ 64)) with
  | none => .error .seekError
  | some (newOffset, hd') =>
    if newOffset % 2 ^ 64 ≠ 512 * g.PartitionEntryLBA % 2 ^ 64 then
      .error .seekMismatch
    else if g.SizeOfPartitionEntry = 0 then .error .panicDivByZero
    else
      let partitionsPerBlock := 512 / g.SizeOfPartitionEntry % 2 ^ 32
      if 512 % g.SizeOfPartitionEntry ≠ 0 then .error .misalignedEntrySize
      else
        partsLoop partitionsPerBlock (sub32 g.SizeOfPartitionEntry 128)
          (hd'.data.length / 512 + 1) g.MaxNumberPartitionEntries hd' []

/-- The trailing padding bytes of the partition entry with zero-based
global index `m`, in a partition array of entry size `E` starting at
byte offset `pos` of the device: the `E - 128` bytes following the
entry's 128 fixed bytes.  (When `E` divides the block size, entry `m`
starts at byte `pos + E * m` of the device: the block loop places block
`m / (512 / E)` at offset `pos + 512 * (m / (512 / E))` and slot
`m % (512 / E)` at byte `E * (m % (512 / E))` within it.) -/
def paddingSlice (data : List Nat) (pos E m : Nat) : List Nat :=
  (data.drop (pos + E * m + 128)).take (E - 128)

/-! ## C1 -/

/-- C1: `toString` of the all-zero GUID is the 36-character zero string,
but `HumanString` (classify) of the zero GUID does NOT yield `"Unused"`:
the `switch` case literal in the source has a 13-character final group, so
it can never match the 12-character final group that `String` produces,
and the zero GUID falls through to the default branch, returning its
canonical string.  This contradicts the documented intent ("a well-known
zero-valued GUID denotes unused partition slot"). -/
theorem c1_zero_guid_classify_not_unused :
    GUID.toString ZeroGUID = "00000000-0000-0000-0000-000000000000" ∧
    GUID.HumanString ZeroGUID ≠ "Unused" ∧
    GUID.HumanString ZeroGUID = "00000000-0000-0000-0000-000000000000" := by
  refine ⟨by decide, by decide, by decide⟩

/-! ## C9 -/

/-- C9: `Size` computes `endingLBA - startingLBA` as an unsigned 64-bit
value — the plain difference when the LBAs are ordered, the value wrapped
modulo `2^64` when the ending LBA is below the starting LBA — and its
result is always a valid `uint64`; the operation has no failure outcome. -/
theorem c9_size_wrapping_subtraction (e : GPTPartitionEntry)
    (hs : e.StartingLBA < 2 ^ 64) (he : e.EndingLBA < 2 ^ 64) :
    (e.StartingLBA ≤ e.EndingLBA → e.Size = e.EndingLBA - e.StartingLBA) ∧
    (e.EndingLBA < e.StartingLBA →
      e.Size = 2 ^ 64 - (e.StartingLBA - e.EndingLBA)) ∧
    e.Size < 2 ^ 64 := by
  unfold GPTPartitionEntry.Size
  refine ⟨fun h => ?_, fun h => ?_, ?_⟩ <;> omega

/-- Witness for C9 at a concrete wrapped entry: ending LBA 5, starting
LBA 12 gives `2^64 - 7`. -/
theorem c9_size_wrapping_subtraction_witness :
    (GPTPartitionEntry.mk ZeroGUID ZeroGUID 12 5 0 []).Size
      = 2 ^ 64 - 7 := by
  have h := c9_size_wrapping_subtraction
    (GPTPartitionEntry.mk ZeroGUID ZeroGUID 12 5 0 [])
    (by norm_num) (by norm_num)
  simpa using h.2.1 (by norm_num)

/-! ## C10 -/

/-- C10: decoding any 16 bytes into a `GUID` (little-endian field layout)
and re-encoding the same fields in the same layout reproduces the
original 16 bytes. -/
theorem c10_guid_roundtrip
    (b0 b1 b2 b3 b4 b5 b6 b7 b8 b9 b10 b11 b12 b13 b14 b15 : Nat)
    (h0 : b0 < 256) (h1 : b1 < 256) (h2 : b2 < 256) (h3 : b3 < 256)
    (h4 : b4 < 256) (h5 : b5 < 256) (h6 : b6 < 256) (h7 : b7 < 256)
    (h8 : b8 < 256) (h9 : b9 < 256) :
    encodeGUID (decodeGUID
        [b0, b1, b2, b3, b4, b5, b6, b7, b8, b9, b10, b11, b12, b13, b14, b15])
      = [b0, b1, b2, b3, b4, b5, b6, b7, b8, b9, b10, b11, b12, b13, b14, b15] := by
  simp only [encodeGUID, decodeGUID, le32Bytes, le16Bytes, le32, le16, byteAt,
    List.getD, List.getElem?_cons_zero, List.getElem?_cons_succ,
    Option.getD_some, List.cons_append, List.nil_append, List.cons.injEq,
    and_true, List.get?_eq_getElem?]
  refine ⟨?_, ?_, ?_, ?_, ?_, ?_, ?_, ?_, ?_, ?_⟩ <;> omega

/-- Witness for C10 at a concrete 16-byte input. -/
theorem c10_guid_roundtrip_witness :
    encodeGUID (decodeGUID
        [40, 115, 42, 193, 31, 248, 210, 17, 186, 75, 0, 160, 201, 62, 201, 59])
      = [40, 115, 42, 193, 31, 248, 210, 17, 186, 75, 0, 160, 201, 62, 201, 59] :=
  c10_guid_roundtrip 40 115 42 193 31 248 210 17 186 75 0 160 201 62 201 59
    (by norm_num) (by norm_num) (by norm_num) (by norm_num) (by norm_num)
    (by norm_num) (by norm_num) (by norm_num) (by norm_num) (by norm_num)

/-! ## C7 -/

/-- Shifting the start index of the first-zero scan shifts its result. -/
theorem firstZeroIdx_shift (l : List Nat) :
    ∀ i, firstZeroIdx l i = (firstZeroIdx l 0).map (fun j => j + i) := by
  induction l with
  | nil => intro i; simp [firstZeroIdx]
  | cons c rest ih =>
    intro i
    by_cases hc : c = 0
    · simp [firstZeroIdx, hc]
    · simp only [firstZeroIdx, if_neg hc]
      rw [ih (i + 1), ih 1, Option.map_map]
      congr 1
      funext j
      simp only [Function.comp_apply]
      omega

/-- If the scan finds no zero unit, every unit survives `takeWhile`. -/
theorem firstZeroIdx_none_takeWhile (l : List Nat)
    (h : firstZeroIdx l 0 = none) :
    l.takeWhile (fun u => u != 0) = l := by
  induction l with
  | nil => simp
  | cons c rest ih =>
    by_cases hc : c = 0
    · simp [firstZeroIdx, hc] at h
    · simp only [firstZeroIdx, if_neg hc, firstZeroIdx_shift rest 1] at h
      simp only [List.takeWhile_cons, bne_iff_ne, ne_eq, hc,
        not_false_eq_true, if_true, if_pos]
      rw [ih (by rcases hfz : firstZeroIdx rest 0 with _ | j <;> simp [hfz] at h ⊢)]

/-- If the scan finds its first zero at index `j`, the prefix of length
`j` is exactly the `takeWhile` prefix of non-zero units. -/
theorem firstZeroIdx_some_take (l : List Nat) (j : Nat)
    (h : firstZeroIdx l 0 = some j) :
    l.take j = l.takeWhile (fun u => u != 0) := by
  induction l generalizing j with
  | nil => simp [firstZeroIdx] at h
  | cons c rest ih =>
    by_cases hc : c = 0
    · simp only [firstZeroIdx, if_pos hc, Option.some.injEq] at h
      subst h
      simp [hc]
    · simp only [firstZeroIdx, if_neg hc, firstZeroIdx_shift rest 1] at h
      rcases hfz : firstZeroIdx rest 0 with _ | j'
      · simp [hfz] at h
      · rw [hfz] at h
        simp only [Option.map_some'] at h
        cases h
        simp only [List.take_succ_cons, List.takeWhile_cons, bne_iff_ne,
          ne_eq, hc, not_false_eq_true, if_true, if_pos]
        rw [ih j' hfz]

/-- The body of `GetName` over an arbitrary unit list equals decoding the
longest zero-free prefix. -/
theorem getName_body_takeWhile (l : List Nat) :
    (match firstZeroIdx l 0 with
      | some 0 => ""
      | some i => String.mk (utf16Decode (l.take i))
      | none => String.mk (utf16Decode l))
    = String.mk (utf16Decode (l.takeWhile (fun u => u != 0))) := by
  rcases h : firstZeroIdx l 0 with _ | j
  · rw [firstZeroIdx_none_takeWhile l h]
  · rcases j with _ | j'
    · have := firstZeroIdx_some_take l 0 h
      simp only [List.take_zero] at this
      rw [← this]
      rfl
    · rw [← firstZeroIdx_some_take l (j' + 1) h]
      rfl

/-- C7: `GetName` decodes the UTF-16 code units up to and excluding the
first zero unit: in general it equals the UTF-16 decoding of the longest
zero-free prefix of the 36-unit field; a field whose first unit is zero
yields the empty string; a field without any zero unit is decoded in
full; and the field `[0x0048, 0x0049, 0, …]` yields `"HI"`. -/
theorem c7_getname_first_zero :
    (∀ e : GPTPartitionEntry,
      e.GetName = String.mk (utf16Decode (e.PartitionName.takeWhile (fun u => u != 0)))) ∧
    (∀ (t u : GUID) (s en a : Nat) (rest : List Nat),
      (GPTPartitionEntry.mk t u s en a (0 :: rest)).GetName = "") ∧
    (∀ e : GPTPartitionEntry, (∀ u ∈ e.PartitionName, u ≠ 0) →
      e.GetName = String.mk (utf16Decode e.PartitionName)) ∧
    (GPTPartitionEntry.mk ZeroGUID ZeroGUID 0 0 0
        (72 :: 73 :: List.replicate 34 0)).GetName = "HI" := by
  have hmain : ∀ e : GPTPartitionEntry,
      e.GetName = String.mk (utf16Decode (e.PartitionName.takeWhile (fun u => u != 0))) := by
    intro e
    unfold GPTPartitionEntry.GetName
    exact getName_body_takeWhile e.PartitionName
  refine ⟨hmain, ?_, ?_, ?_⟩
  · intro t u s en a rest
    simp [GPTPartitionEntry.GetName, firstZeroIdx]
  · intro e he
    rw [hmain e, List.takeWhile_eq_self_iff.mpr]
    intro a ha
    simpa using he a ha
  · decide

/-- Witness for C7's hypothesis-bearing conjunct: the entry whose name
field is the two non-zero units `[72, 73]` decodes in full, to `"HI"`. -/
theorem c7_getname_first_zero_witness :
    (GPTPartitionEntry.mk ZeroGUID ZeroGUID 0 0 0 [72, 73]).GetName
      = String.mk (utf16Decode [72, 73]) :=
  c7_getname_first_zero.2.2.1
    (GPTPartitionEntry.mk ZeroGUID ZeroGUID 0 0 0 [72, 73])
    (by decide)

/-! ## C4 -/

/-- C4: `Verify` performs its checks in order and returns the first
failing one: (a) a wrong signature yields `badSignature` regardless of
the other fields; (b) with the signature right, a non-zero reserved
field yields `reservedNonZero`; (c) with both right, any non-zero
padding byte yields `paddingCorrupted`; (d) with all three right, a
header LBA other than 1 or a partition-array LBA other than 2 yields
`unsupportedLayout`; and a header passing all four checks verifies
cleanly. -/
theorem c4_verify_check_order (g : GPTHeader) :
    (g.Signature ≠ efiSignature → g.Verify = some .badSignature) ∧
    (g.Signature = efiSignature → g.Reserved ≠ 0 →
      g.Verify = some .reservedNonZero) ∧
    (g.Signature = efiSignature → g.Reserved = 0 →
      (∃ b ∈ g.Padding, b ≠ 0) → g.Verify = some .paddingCorrupted) ∧
    (g.Signature = efiSignature → g.Reserved = 0 →
      (∀ b ∈ g.Padding, b = 0) → (g.MyLBA ≠ 1 ∨ g.PartitionEntryLBA ≠ 2) →
      g.Verify = some .unsupportedLayout) ∧
    (g.Signature = efiSignature → g.Reserved = 0 →
      (∀ b ∈ g.Padding, b = 0) → g.MyLBA = 1 → g.PartitionEntryLBA = 2 →
      g.Verify = none) := by
  refine ⟨fun h1 => ?_, fun h1 h2 => ?_, fun h1 h2 h3 => ?_,
    fun h1 h2 h3 h4 => ?_, fun h1 h2 h3 h4 h5 => ?_⟩
  · simp [GPTHeader.Verify, h1]
  · simp [GPTHeader.Verify, h1, h2]
  · obtain ⟨b, hb, hbne⟩ := h3
    have hany : g.Padding.any (fun b => b != 0) = true :=
      List.any_eq_true.mpr ⟨b, hb, by simpa using hbne⟩
    simp [GPTHeader.Verify, h1, h2, hany]
  · have hany : g.Padding.any (fun b => b != 0) = false := by
      simp only [List.any_eq_false]
      intro x hx
      simpa using h3 x hx
    simp [GPTHeader.Verify, h1, h2, hany, h4]
  · have hany : g.Padding.any (fun b => b != 0) = false := by
      simp only [List.any_eq_false]
      intro x hx
      simpa using h3 x hx
    simp [GPTHeader.Verify, GPTHeader.verifyAlt, h1, h2, hany, h4, h5]

/-- Witness for C4: four concrete headers, one per failing check, and a
fifth that passes all checks. -/
theorem c4_verify_check_order_witness :
    ({ cleanHeader with Signature := List.replicate 8 0 } : GPTHeader).Verify
        = some .badSignature ∧
    ({ cleanHeader with Reserved := 7 } : GPTHeader).Verify
        = some .reservedNonZero ∧
    ({ cleanHeader with
        Padding := List.replicate 419 0 ++ [1] } : GPTHeader).Verify
        = some .paddingCorrupted ∧
    ({ cleanHeader with MyLBA := 2 } : GPTHeader).Verify
        = some .unsupportedLayout ∧
    cleanHeader.Verify = none := by
  refine ⟨(c4_verify_check_order _).1 (by decide),
    (c4_verify_check_order _).2.1 (by decide) (by decide),
    (c4_verify_check_order _).2.2.1 (by decide) (by decide) ?_,
    (c4_verify_check_order _).2.2.2.1 (by decide) (by decide) (by decide)
      (by decide),
    (c4_verify_check_order _).2.2.2.2 (by decide) (by decide) (by decide)
      (by decide) (by decide)⟩
  exact ⟨1, by decide, by decide⟩

/-! ## C3 -/

/-- C3: `Verify` performs no checksum comparison at all: its result is
entirely independent of the stored `HeaderCRC32` and
`PartitionEntryArrayCRC32` fields, and a structurally clean header is
accepted for every stored checksum pair — in particular for two stored
header-checksum values that cannot both equal the CRC-32 of the header
bytes.  This contradicts the spec's complete contract (and the source's
own `BUG` comments record the omission). -/
theorem c3_verify_never_checks_crc :
    (∀ (g : GPTHeader) (c c' : Nat),
      ({ g with HeaderCRC32 := c, PartitionEntryArrayCRC32 := c' } : GPTHeader).Verify
        = g.Verify) ∧
    (∀ c c' : Nat,
      ({ cleanHeader with
          HeaderCRC32 := c
          PartitionEntryArrayCRC32 := c' } : GPTHeader).Verify = none) :=
  ⟨fun _ _ _ => rfl, fun _ _ => rfl⟩

/-! ## The seek prelude of `GetPartitions` -/

/-- When the computed `int64` seek offset is non-negative (the product
`512 * PartitionEntryLBA`, wrapped to 64 bits, is below `2^63`), the
seek succeeds at exactly the requested offset, the achieved-offset check
passes, and `GetPartitions` reduces to the entry-size checks followed by
the block loop at position `512 * PartitionEntryLBA % 2^64`. -/
theorem getPartitions_seek_ok (g : GPTHeader) (hd : Reader)
    (hoff : 512 * g.PartitionEntryLBA % 2 ^ 64 < 2 ^ 63) :
    g.GetPartitions hd =
      (if g.SizeOfPartitionEntry = 0 then .error .panicDivByZero
       else if 512 % g.SizeOfPartitionEntry ≠ 0 then .error .misalignedEntrySize
       else partsLoop (512 / g.SizeOfPartitionEntry % 2 ^ 32)
         (sub32 g.SizeOfPartitionEntry 128) (hd.data.length / 512 + 1)
         g.MaxNumberPartitionEntries
         ⟨hd.data, 512 * g.PartitionEntryLBA % 2 ^ 64⟩ []) := by
  have hv : 512 * g.PartitionEntryLBA % 2 ^ 64 < 2 ^ 64 :=
    Nat.mod_lt _ (by norm_num)
  unfold GPTHeader.GetPartitions goSeek toInt64
  rw [if_pos hoff]
  rw [if_neg (Int.not_lt.mpr (Int.natCast_nonneg _))]
  simp only [Int.toNat_natCast, Nat.mod_eq_of_lt hv, ne_eq,
    not_true_eq_false, if_false, ite_not]

/-! ## C5 -/

/-- C5 counterexample: the claim as stated fails for a zero-entry-size
header whose partition-array LBA makes the computed `int64` seek offset
negative (`512 * 2^54` wraps to `2^63`, i.e. `int64` value `-2^63`): the
seek fails first and the division is never reached, so the call neither
panics nor reports `misalignedEntrySize`. -/
theorem c5_counterexample :
    ({ cleanHeader with SizeOfPartitionEntry := 0, PartitionEntryLBA := 2 ^ 54 } : GPTHeader).GetPartitions
        ⟨[], 0⟩ = .error .seekError ∧
    ({ cleanHeader with SizeOfPartitionEntry := 0, PartitionEntryLBA := 2 ^ 54 } : GPTHeader).GetPartitions
        ⟨[], 0⟩ ≠ .error .panicDivByZero := by
  have h : ({ cleanHeader with SizeOfPartitionEntry := 0, PartitionEntryLBA := 2 ^ 54 } : GPTHeader).GetPartitions
      ⟨[], 0⟩ = .error .seekError := rfl
  exact ⟨h, by rw [h]; simp⟩

/-- C5 (amended): for every header with `SizeOfPartitionEntry = 0` whose
pre-loop seek succeeds (the wrapped byte offset of the partition array is
representable as a non-negative `int64`), `GetPartitions` hits the
unguarded division by zero — a Go runtime panic — before the
divisibility check, so the `misalignedEntrySize` branch is never
reached, for every reader. -/
theorem c5_zero_entry_size_panics (g : GPTHeader) (r : Reader)
    (hz : g.SizeOfPartitionEntry = 0)
    (hoff : 512 * g.PartitionEntryLBA % 2 ^ 64 < 2 ^ 63) :
    g.GetPartitions r = .error .panicDivByZero ∧
    g.GetPartitions r ≠ .error .misalignedEntrySize := by
  have h := getPartitions_seek_ok g r hoff
  rw [if_pos hz] at h
  exact ⟨h, by rw [h]; simp⟩

/-- Witness for C5 at a concrete input: the clean header with entry size
zeroed, over an empty device. -/
theorem c5_zero_entry_size_panics_witness :
    ({ cleanHeader with SizeOfPartitionEntry := 0 } : GPTHeader).GetPartitions
        ⟨[], 0⟩ = .error .panicDivByZero ∧
    ({ cleanHeader with SizeOfPartitionEntry := 0 } : GPTHeader).GetPartitions
        ⟨[], 0⟩ ≠ .error .misalignedEntrySize :=
  c5_zero_entry_size_panics _ ⟨[], 0⟩ (by decide) (by decide)

/-! ## C8 -/

/-- C8 counterexample: the claim as stated fails for a non-dividing
entry size combined with a partition-array LBA whose computed `int64`
seek offset is negative: the seek fails first, so the call does not
report `misalignedEntrySize`. -/
theorem c8_counterexample :
    ({ cleanHeader with SizeOfPartitionEntry := 3, PartitionEntryLBA := 2 ^ 54 } : GPTHeader).GetPartitions
        ⟨[], 0⟩ = .error .seekError ∧
    ({ cleanHeader with SizeOfPartitionEntry := 3, PartitionEntryLBA := 2 ^ 54 } : GPTHeader).GetPartitions
        ⟨[], 0⟩ ≠ .error .misalignedEntrySize := by
  have h : ({ cleanHeader with SizeOfPartitionEntry := 3, PartitionEntryLBA := 2 ^ 54 } : GPTHeader).GetPartitions
      ⟨[], 0⟩ = .error .seekError := rfl
  exact ⟨h, by rw [h]; simp⟩

/-- C8 (amended): for every header whose `SizeOfPartitionEntry` is
non-zero and does not evenly divide the 512-byte block size, and whose
pre-loop seek succeeds (wrapped partition-array byte offset below
`2^63`), `GetPartitions` fails with `misalignedEntrySize` for every
reader — in particular before any partition data is read or decoded. -/
theorem c8_misaligned_entry_size (g : GPTHeader) (r : Reader)
    (hnz : g.SizeOfPartitionEntry ≠ 0)
    (hdiv : 512 % g.SizeOfPartitionEntry ≠ 0)
    (hoff : 512 * g.PartitionEntryLBA % 2 ^ 64 < 2 ^ 63) :
    g.GetPartitions r = .error .misalignedEntrySize := by
  have h := getPartitions_seek_ok g r hoff
  rw [if_neg hnz, if_pos hdiv] at h
  exact h

/-- Witness for C8 at a concrete input: entry size 3 (which does not
divide 512) at the standard partition-array location, over an empty
device. -/
theorem c8_misaligned_entry_size_witness :
    ({ cleanHeader with SizeOfPartitionEntry := 3 } : GPTHeader).GetPartitions
        ⟨[], 0⟩ = .error .misalignedEntrySize :=
  c8_misaligned_entry_size _ ⟨[], 0⟩ (by decide) (by decide) (by decide)

/-! ## C2: entry counting in the block loop -/

/-- A successful `readFull`, in the form used below. -/
theorem readFull_ok (r : Reader) (n : Nat) (h : r.pos + n ≤ r.data.length) :
    readFull r n = some ((r.data.drop r.pos).take n, ⟨r.data, r.pos + n⟩) := by
  unfold readFull
  rw [if_pos h]

/-- With `paddingSize = 0` (entry size exactly 128) and enough bytes in
the reader, the inner loop decodes exactly `c` entries, advances the
position by `128 * c`, and decrements the wrap-around counter to
`left - c` (no wrap occurs while `c ≤ left < 2^32`). -/
theorem readEntries_nopad :
    ∀ (c : Nat) (pr : Reader) (left : Nat) (acc : List GPTPartitionEntry),
    c ≤ left → left < 2 ^ 32 → pr.pos + 128 * c ≤ pr.data.length →
    ∃ es, readEntries 0 c pr left acc
        = .ok (⟨pr.data, pr.pos + 128 * c⟩, left - c, acc ++ es) ∧
      es.length = c := by
  intro c
  induction c with
  | zero =>
    intro pr left acc _ _ _
    refine ⟨[], ?_, rfl⟩
    simp [readEntries]
  | succ c ih =>
    intro pr left acc hle hlt hdata
    have hrf := readFull_ok pr 128 (by omega)
    have hdec : dec32 left = left - 1 := by
      unfold dec32
      omega
    obtain ⟨es', heq, hlen⟩ := ih ⟨pr.data, pr.pos + 128⟩ (left - 1)
      (acc ++ [decodeEntry ((pr.data.drop pr.pos).take 128)])
      (by omega) (by omega) (by simp only []; omega)
    refine ⟨decodeEntry ((pr.data.drop pr.pos).take 128) :: es', ?_, by simp [hlen]⟩
    have h1 : pr.pos + 128 + 128 * c = pr.pos + 128 * (c + 1) := by ring
    have h2 : left - 1 - c = left - (c + 1) := by omega
    simp only [readEntries, hrf, gt_iff_lt, lt_self_iff_false, if_false, hdec]
    rw [heq, h1, h2]
    simp

/-- With 4 entries of 128 bytes per block and `left = 4 * k`, the block
loop reads `k` full blocks and returns exactly `left` decoded entries. -/
theorem partsLoop_nopad :
    ∀ (k fuel left : Nat) (r : Reader) (acc : List GPTPartitionEntry),
    left = 4 * k → left < 2 ^ 32 → k ≤ fuel →
    r.pos + 512 * k ≤ r.data.length →
    ∃ es, partsLoop 4 0 fuel left r acc = .ok (acc ++ es) ∧ es.length = left := by
  intro k
  induction k with
  | zero =>
    intro fuel left r acc hleft _ _ _
    subst hleft
    refine ⟨[], ?_, rfl⟩
    cases fuel <;> simp [partsLoop]
  | succ k ih =>
    intro fuel left r acc hleft hlt hfuel hdata
    obtain ⟨f, rfl⟩ : ∃ f, fuel = f + 1 := ⟨fuel - 1, by omega⟩
    have hrf := readFull_ok r 512 (by omega)
    have hblen : ((r.data.drop r.pos).take 512).length = 512 := by
      simp
      omega
    obtain ⟨es₁, heq₁, hlen₁⟩ := readEntries_nopad 4 ⟨(r.data.drop r.pos).take 512, 0⟩
      left acc (by omega) hlt (by simp [hblen])
    obtain ⟨es₂, heq₂, hlen₂⟩ := ih f (left - 4) ⟨r.data, r.pos + 512⟩ (acc ++ es₁)
      (by omega) (by omega) (by omega) (by simp only []; omega)
    refine ⟨es₁ ++ es₂, ?_, by simp [hlen₁, hlen₂]; omega⟩
    have hne : ¬ left = 0 := by omega
    simp only [partsLoop, if_neg hne, hrf, heq₁, heq₂]
    simp

/-- C2 counterexample: a structurally valid header declaring
`maxNumberPartitionEntries = 2` and `sizeOfPartitionEntry = 128`, over a
device holding a full block of partition data (more than enough bytes
for 2 entries): the inner loop always decodes 4 entries per block and
decrements the `uint32` counter past zero, so the counter wraps to
`2^32 - 2` instead of terminating, and the call fails with a read error
instead of returning exactly 2 entries. -/
theorem c2_counterexample :
    ({ cleanHeader with MaxNumberPartitionEntries := 2 } : GPTHeader).GetPartitions
        ⟨List.replicate 1536 0, 0⟩ = .error .readError ∧
    ∀ es : List GPTPartitionEntry,
      ({ cleanHeader with MaxNumberPartitionEntries := 2 } : GPTHeader).GetPartitions
          ⟨List.replicate 1536 0, 0⟩ ≠ .ok es := by
  have h : ({ cleanHeader with MaxNumberPartitionEntries := 2 } : GPTHeader).GetPartitions
      ⟨List.replicate 1536 0, 0⟩ = .error .readError := rfl
  exact ⟨h, fun es => by rw [h]; simp⟩

/-- C2 (amended): for every header with `sizeOfPartitionEntry = 128`
(four 128-byte entries per 512-byte block, no per-entry padding) whose
`maxNumberPartitionEntries` is a multiple `4 * k` of the entries per
block, and every reader providing the `k` full blocks of partition data
at the partition-array offset, `GetPartitions` succeeds and returns
exactly `maxNumberPartitionEntries` entries, in order, empty slots
included.  The spec's particular instance (`maxNumberPartitionEntries =
4`, one block, one full-block read) is the case `k = 1`, exercised by
the witness over a device ending right after that single block. -/
theorem c2_partition_count (g : GPTHeader) (r : Reader) (k : Nat)
    (hsz : g.SizeOfPartitionEntry = 128)
    (hmax : g.MaxNumberPartitionEntries = 4 * k)
    (hlt : g.MaxNumberPartitionEntries < 2 ^ 32)
    (hoff : 512 * g.PartitionEntryLBA % 2 ^ 64 < 2 ^ 63)
    (hdata : 512 * g.PartitionEntryLBA % 2 ^ 64 + 512 * k ≤ r.data.length) :
    ∃ es, g.GetPartitions r = .ok es ∧
      es.length = g.MaxNumberPartitionEntries := by
  have h := getPartitions_seek_ok g r hoff
  rw [hsz] at h
  rw [if_neg (by decide), if_neg (by decide)] at h
  have e1 : 512 / 128 % 2 ^ 32 = 4 := by norm_num
  have e2 : sub32 128 128 = 0 := by norm_num [sub32]
  rw [e1, e2] at h
  obtain ⟨es, heq, hlen⟩ := partsLoop_nopad k (r.data.length / 512 + 1)
    g.MaxNumberPartitionEntries ⟨r.data, 512 * g.PartitionEntryLBA % 2 ^ 64⟩ []
    hmax hlt (by omega) (by simp only []; omega)
  refine ⟨es, ?_, hlen⟩
  rw [h, heq]
  simp

/-- Witness for C2: the spec's 4/128/512 instance.  The device holds the
two leading blocks plus exactly one block of partition data (1536 bytes
in total), so the successful run performs exactly one full-block read
and returns exactly 4 entries. -/
theorem c2_partition_count_witness :
    ∃ es, cleanHeader.GetPartitions ⟨List.replicate 1536 7, 0⟩ = .ok es ∧
      es.length = cleanHeader.MaxNumberPartitionEntries :=
  c2_partition_count cleanHeader ⟨List.replicate 1536 7, 0⟩ 1
    (by decide) (by decide) (by decide) (by decide) (by decide)

/-! ## C6: entry-padding verification -/

/-- Multiplying by a successor does not decrease: `E ≤ E * (k + 1)`. -/
theorem le_mul_succ (E k : Nat) : E ≤ E * (k + 1) := by
  have := Nat.mul_le_mul_left E (show 1 ≤ k + 1 by omega)
  simpa using this

/-- An all-zero byte list fails the `any (· != 0)` scan. -/
theorem any_ne_zero_eq_false {l : List Nat} (h : ∀ b ∈ l, b = 0) :
    l.any (fun b => b != 0) = false := by
  simp only [List.any_eq_false]
  intro x hx
  simpa using h x hx

/-- A byte list with a non-zero member passes the `any (· != 0)` scan. -/
theorem any_ne_zero_eq_true {l : List Nat} (h : ∃ b ∈ l, b ≠ 0) :
    l.any (fun b => b != 0) = true := by
  obtain ⟨b, hb, hbne⟩ := h
  exact List.any_eq_true.mpr ⟨b, hb, by simpa⟩

/-- Moving the base offset one entry forward renumbers padding slices. -/
theorem paddingSlice_succ (data : List Nat) (pos E i : Nat) :
    paddingSlice data (pos + E) E i = paddingSlice data pos E (i + 1) := by
  unfold paddingSlice
  congr 2
  ring

/-- Moving the base offset one 512-byte block forward renumbers padding
slices by the number of entries per block. -/
theorem paddingSlice_next_block (data : List Nat) (pos E perBlock m : Nat)
    (h : E * perBlock = 512) :
    paddingSlice data (pos + 512) E m = paddingSlice data pos E (m + perBlock) := by
  unfold paddingSlice
  congr 2
  rw [Nat.mul_add, h]
  omega

/-- Padding slices taken inside one extracted 512-byte block agree with
the padding slices of the device, for entries lying inside the block. -/
theorem paddingSlice_block (data : List Nat) (pos E i : Nat)
    (hE : 128 ≤ E) (h : E * (i + 1) ≤ 512) :
    paddingSlice ((data.drop pos).take 512) 0 E i = paddingSlice data pos E i := by
  have h' : E * i + E ≤ 512 := by rw [Nat.mul_succ] at h; exact h
  unfold paddingSlice
  rw [List.drop_take, List.take_take, List.drop_drop]
  rw [min_eq_left (by omega)]
  congr 2
  omega

/-- One iteration of the inner loop with a positive padding size
(`E > 128` bytes per entry): decode 128 fixed bytes, then read the
`E - 128` padding bytes — the padding slice of the current position —
and fail if any is non-zero, else continue `E` bytes further on. -/
theorem readEntries_step (E c : Nat) (pr : Reader) (left : Nat)
    (acc : List GPTPartitionEntry)
    (hE : 128 < E) (hdata : pr.pos + E ≤ pr.data.length) :
    readEntries (E - 128) (c + 1) pr left acc =
      (if (paddingSlice pr.data pr.pos E 0).any (fun b => b != 0) then
        .error .entryPaddingCorrupted
       else readEntries (E - 128) c ⟨pr.data, pr.pos + E⟩ (dec32 left)
         (acc ++ [decodeEntry ((pr.data.drop pr.pos).take 128)])) := by
  have hrf1 := readFull_ok pr 128 (by omega)
  have hrf2 := readFull_ok ⟨pr.data, pr.pos + 128⟩ (E - 128) (by simp only []; omega)
  have hpos : pr.pos + 128 + (E - 128) = pr.pos + E := by omega
  have hslice : (pr.data.drop (pr.pos + 128)).take (E - 128)
      = paddingSlice pr.data pr.pos E 0 := rfl
  simp only [] at hrf2
  rw [hpos] at hrf2
  simp only [readEntries, hrf1, gt_iff_lt]
  rw [if_pos (show 0 < E - 128 by omega)]
  rw [hrf2, hslice]

/-- If the padding of some entry `j` within reach of the inner loop
contains a non-zero byte while all earlier entries' paddings are zero,
the loop fails with `entryPaddingCorrupted` (whatever the counter and
accumulator hold). -/
theorem readEntries_pad_bad :
    ∀ (j E c : Nat) (pr : Reader) (left : Nat) (acc : List GPTPartitionEntry),
    128 < E → j < c → pr.pos + E * (j + 1) ≤ pr.data.length →
    (∀ i < j, ∀ b ∈ paddingSlice pr.data pr.pos E i, b = 0) →
    (∃ b ∈ paddingSlice pr.data pr.pos E j, b ≠ 0) →
    readEntries (E - 128) c pr left acc = .error .entryPaddingCorrupted := by
  intro j
  induction j with
  | zero =>
    intro E c pr left acc hE hjc hdata hclean hbad
    obtain ⟨c', rfl⟩ : ∃ c', c = c' + 1 := ⟨c - 1, by omega⟩
    have hd : pr.pos + E ≤ pr.data.length := by simpa using hdata
    rw [readEntries_step E c' pr left acc hE hd]
    rw [if_pos (any_ne_zero_eq_true hbad)]
  | succ j ih =>
    intro E c pr left acc hE hjc hdata hclean hbad
    obtain ⟨c', rfl⟩ : ∃ c', c = c' + 1 := ⟨c - 1, by omega⟩
    have hmul : E ≤ E * (j + 1 + 1) := le_mul_succ E (j + 1)
    have hd : pr.pos + E ≤ pr.data.length := by omega
    rw [readEntries_step E c' pr left acc hE hd]
    rw [if_neg (by rw [any_ne_zero_eq_false (hclean 0 (by omega))]; simp)]
    have hshift : E + E * (j + 1) = E * (j + 1 + 1) := by ring
    refine ih E c' ⟨pr.data, pr.pos + E⟩ (dec32 left) _ hE (by omega)
      (by simp only []; omega) ?_ ?_
    · intro i hi
      rw [show (⟨pr.data, pr.pos + E⟩ : Reader).pos = pr.pos + E from rfl,
        paddingSlice_succ]
      exact hclean (i + 1) (by omega)
    · rw [show (⟨pr.data, pr.pos + E⟩ : Reader).pos = pr.pos + E from rfl,
        paddingSlice_succ]
      exact hbad

/-- If the paddings of all `c` entries within reach of the inner loop
are zero, the loop decodes exactly `c` entries, advances by `E * c`
bytes, and decrements the wrap-around counter to `left - c`. -/
theorem readEntries_pad_clean :
    ∀ (c E : Nat) (pr : Reader) (left : Nat) (acc : List GPTPartitionEntry),
    128 < E → c ≤ left → left < 2 ^ 32 → pr.pos + E * c ≤ pr.data.length →
    (∀ i < c, ∀ b ∈ paddingSlice pr.data pr.pos E i, b = 0) →
    ∃ es, readEntries (E - 128) c pr left acc
        = .ok (⟨pr.data, pr.pos + E * c⟩, left - c, acc ++ es) ∧ es.length = c := by
  intro c
  induction c with
  | zero =>
    intro E pr left acc _ _ _ _ _
    refine ⟨[], ?_, rfl⟩
    simp [readEntries]
  | succ c ih =>
    intro E pr left acc hE hle hlt hdata hclean
    have hmul : E ≤ E * (c + 1) := le_mul_succ E c
    have hd : pr.pos + E ≤ pr.data.length := by omega
    have hdec : dec32 left = left - 1 := by
      unfold dec32
      omega
    have hshift : E + E * c = E * (c + 1) := by ring
    obtain ⟨es', heq, hlen⟩ := ih E ⟨pr.data, pr.pos + E⟩ (left - 1)
      (acc ++ [decodeEntry ((pr.data.drop pr.pos).take 128)])
      hE (by omega) (by omega) (by simp only []; omega)
      (by
        intro i hi
        rw [show (⟨pr.data, pr.pos + E⟩ : Reader).pos = pr.pos + E from rfl,
          paddingSlice_succ]
        exact hclean (i + 1) (by omega))
    refine ⟨decodeEntry ((pr.data.drop pr.pos).take 128) :: es', ?_, by simp [hlen]⟩
    rw [readEntries_step E c pr left acc hE hd]
    rw [if_neg (by rw [any_ne_zero_eq_false (hclean 0 (by omega))]; simp)]
    rw [hdec, heq]
    have h1 : pr.pos + E + E * c = pr.pos + E * (c + 1) := by
      rw [← hshift]
      omega
    have h2 : left - 1 - c = left - (c + 1) := by omega
    rw [h1, h2]
    simp

/-- If all entry paddings before global entry `perBlock * kb + s` (which
lives at slot `s` of block `kb`) are zero and that entry's padding holds
a non-zero byte, the block loop reads the first `kb` blocks cleanly and
then fails with `entryPaddingCorrupted` inside block `kb`. -/
theorem partsLoop_pad_bad :
    ∀ (kb E perBlock s fuel left : Nat) (r : Reader)
      (acc : List GPTPartitionEntry),
    128 < E → E * perBlock = 512 → s < perBlock →
    perBlock * kb + s < left → left < 2 ^ 32 → kb < fuel →
    r.pos + 512 * (kb + 1) ≤ r.data.length →
    (∀ m < perBlock * kb + s, ∀ b ∈ paddingSlice r.data r.pos E m, b = 0) →
    (∃ b ∈ paddingSlice r.data r.pos E (perBlock * kb + s), b ≠ 0) →
    partsLoop perBlock (E - 128) fuel left r acc = .error .entryPaddingCorrupted := by
  intro kb
  induction kb with
  | zero =>
    intro E perBlock s fuel left r acc hE hmul hs hleft hlt hfuel hdata hclean hbad
    obtain ⟨f, rfl⟩ : ∃ f, fuel = f + 1 := ⟨fuel - 1, by omega⟩
    have hrf := readFull_ok r 512 (by omega)
    have hblen : ((r.data.drop r.pos).take 512).length = 512 := by
      simp
      omega
    have hbadblk : readEntries (E - 128) perBlock
        ⟨(r.data.drop r.pos).take 512, 0⟩ left acc = .error .entryPaddingCorrupted := by
      refine readEntries_pad_bad s E perBlock ⟨(r.data.drop r.pos).take 512, 0⟩
        left acc hE hs ?_ ?_ ?_
      · show 0 + E * (s + 1) ≤ ((r.data.drop r.pos).take 512).length
        have := Nat.mul_le_mul_left E (show s + 1 ≤ perBlock by omega)
        rw [hblen]
        omega
      · intro i hi
        show ∀ b ∈ paddingSlice ((r.data.drop r.pos).take 512) 0 E i, b = 0
        rw [paddingSlice_block r.data r.pos E i (by omega)
          (by have := Nat.mul_le_mul_left E (show i + 1 ≤ perBlock by omega); omega)]
        exact hclean i (by omega)
      · show ∃ b ∈ paddingSlice ((r.data.drop r.pos).take 512) 0 E s, b ≠ 0
        rw [paddingSlice_block r.data r.pos E s (by omega)
          (by have := Nat.mul_le_mul_left E (show s + 1 ≤ perBlock by omega); omega)]
        have hzs : perBlock * 0 + s = s := by omega
        rw [hzs] at hbad
        exact hbad
    have hne : ¬ left = 0 := by omega
    simp only [partsLoop, if_neg hne, hrf, hbadblk]
  | succ kb ih =>
    intro E perBlock s fuel left r acc hE hmul hs hleft hlt hfuel hdata hclean hbad
    obtain ⟨f, rfl⟩ : ∃ f, fuel = f + 1 := ⟨fuel - 1, by omega⟩
    have hsplit : perBlock * (kb + 1) = perBlock * kb + perBlock := by ring
    have hrf := readFull_ok r 512 (by omega)
    have hblen : ((r.data.drop r.pos).take 512).length = 512 := by
      simp
      omega
    have hclean_blk : ∀ i < perBlock,
        ∀ b ∈ paddingSlice ((r.data.drop r.pos).take 512) 0 E i, b = 0 := by
      intro i hi
      rw [paddingSlice_block r.data r.pos E i (by omega)
        (by have := Nat.mul_le_mul_left E (show i + 1 ≤ perBlock by omega); omega)]
      exact hclean i (by omega)
    obtain ⟨es, heq, hlen⟩ := readEntries_pad_clean perBlock E
      ⟨(r.data.drop r.pos).take 512, 0⟩ left acc hE (by omega) hlt
      (by
        show 0 + E * perBlock ≤ ((r.data.drop r.pos).take 512).length
        rw [hblen, hmul])
      hclean_blk
    have hrec := ih E perBlock s f (left - perBlock) ⟨r.data, r.pos + 512⟩
      (acc ++ es) hE hmul hs (by omega) (by omega) (by omega)
      (by simp only []; omega)
      (by
        intro m hm
        show ∀ b ∈ paddingSlice r.data (r.pos + 512) E m, b = 0
        rw [paddingSlice_next_block r.data r.pos E perBlock m hmul]
        exact hclean (m + perBlock) (by omega))
      (by
        show ∃ b ∈ paddingSlice r.data (r.pos + 512) E (perBlock * kb + s), b ≠ 0
        rw [paddingSlice_next_block r.data r.pos E perBlock _ hmul]
        have hidx : perBlock * kb + s + perBlock = perBlock * (kb + 1) + s := by ring
        rw [hidx]
        exact hbad)
    have hne : ¬ left = 0 := by omega
    have hmul' : 0 + E * perBlock = 512 := by omega
    rw [hmul'] at heq
    simp only [partsLoop, if_neg hne, hrf, heq, hrec]

/-- C6: whenever the trailing padding (the `entrySize - 128` bytes after
the 128 fixed bytes) of the partition entry with global index `j`
contains a non-zero byte — the fixed field bytes being completely
arbitrary — and the entries before it have zero padding so that the scan
reaches entry `j`, `GetPartitions` fails with `entryPaddingCorrupted`.
Stated for every entry size exceeding 128 that divides the 512-byte
block, every entry index below the declared maximum, and every reader
holding the blocks up to and including the one containing entry `j`. -/
theorem c6_entry_padding_corrupted (g : GPTHeader) (r : Reader) (j : Nat)
    (hE : 128 < g.SizeOfPartitionEntry)
    (hdvd : 512 % g.SizeOfPartitionEntry = 0)
    (hoff : 512 * g.PartitionEntryLBA % 2 ^ 64 < 2 ^ 63)
    (hj : j < g.MaxNumberPartitionEntries)
    (hmax : g.MaxNumberPartitionEntries < 2 ^ 32)
    (hdata : 512 * g.PartitionEntryLBA % 2 ^ 64
        + 512 * (j / (512 / g.SizeOfPartitionEntry) + 1) ≤ r.data.length)
    (hclean : ∀ m < j, ∀ b ∈ paddingSlice r.data
        (512 * g.PartitionEntryLBA % 2 ^ 64) g.SizeOfPartitionEntry m, b = 0)
    (hbad : ∃ b ∈ paddingSlice r.data (512 * g.PartitionEntryLBA % 2 ^ 64)
        g.SizeOfPartitionEntry j, b ≠ 0) :
    g.GetPartitions r = .error .entryPaddingCorrupted := by
  have hdvd' : g.SizeOfPartitionEntry ∣ 512 := Nat.dvd_of_mod_eq_zero hdvd
  have hE512 : g.SizeOfPartitionEntry ≤ 512 := Nat.le_of_dvd (by norm_num) hdvd'
  have hmul : g.SizeOfPartitionEntry * (512 / g.SizeOfPartitionEntry) = 512 :=
    Nat.mul_div_cancel' hdvd'
  have hpb_pos : 0 < 512 / g.SizeOfPartitionEntry :=
    Nat.div_pos hE512 (by omega)
  have hds := Nat.div_le_self 512 g.SizeOfPartitionEntry
  have h := getPartitions_seek_ok g r hoff
  rw [if_neg (by omega), if_neg (by simp [hdvd])] at h
  have e1 : 512 / g.SizeOfPartitionEntry % 2 ^ 32 = 512 / g.SizeOfPartitionEntry :=
    Nat.mod_eq_of_lt (by omega)
  have e2 : sub32 g.SizeOfPartitionEntry 128 = g.SizeOfPartitionEntry - 128 := by
    unfold sub32
    omega
  rw [e1, e2] at h
  rw [h]
  have hsplit := Nat.div_add_mod j (512 / g.SizeOfPartitionEntry)
  refine partsLoop_pad_bad (j / (512 / g.SizeOfPartitionEntry))
    g.SizeOfPartitionEntry (512 / g.SizeOfPartitionEntry)
    (j % (512 / g.SizeOfPartitionEntry)) (r.data.length / 512 + 1)
    g.MaxNumberPartitionEntries
    ⟨r.data, 512 * g.PartitionEntryLBA % 2 ^ 64⟩ [] hE hmul
    (Nat.mod_lt j hpb_pos) (by omega) hmax (by omega) ?_ ?_ ?_
  · show 512 * g.PartitionEntryLBA % 2 ^ 64
        + 512 * (j / (512 / g.SizeOfPartitionEntry) + 1) ≤ r.data.length
    exact hdata
  · intro m hm
    show ∀ b ∈ paddingSlice r.data (512 * g.PartitionEntryLBA % 2 ^ 64)
      g.SizeOfPartitionEntry m, b = 0
    exact hclean m (by omega)
  · show ∃ b ∈ paddingSlice r.data (512 * g.PartitionEntryLBA % 2 ^ 64)
      g.SizeOfPartitionEntry
      ((512 / g.SizeOfPartitionEntry) * (j / (512 / g.SizeOfPartitionEntry))
        + j % (512 / g.SizeOfPartitionEntry)), b ≠ 0
    rw [hsplit]
    exact hbad

/-- Witness for C6: entry size 256 (128 padding bytes per entry), entry
index 1 in the first partition block; the padding byte at device offset
1408 is 1, everything else relevant is zero, and all 128 bytes of entry
1's fixed fields are read before the failure. -/
theorem c6_entry_padding_corrupted_witness :
    ({ cleanHeader with SizeOfPartitionEntry := 256 } : GPTHeader).GetPartitions
        ⟨List.replicate 1408 0 ++ 1 :: List.replicate 127 0, 0⟩
      = .error .entryPaddingCorrupted :=
  c6_entry_padding_corrupted
    ({ cleanHeader with SizeOfPartitionEntry := 256 } : GPTHeader)
    ⟨List.replicate 1408 0 ++ 1 :: List.replicate 127 0, 0⟩ 1
    (by decide) (by decide) (by decide) (by decide) (by decide)
    (by decide) (by decide) (by decide)
